import Mathlib

/-
Verification development for the shifts-online dashboard core (src/app.py).

The program ingests a JSON event log into a pandas DataFrame, builds one
IST-aware timestamp per row from several possible encodings
(build_datetime_rowwise), drops unparseable rows, derives display status
from the event label (status_map), optionally restricts to a
Friday-anchored window, and optionally reduces to the latest row per user
(with a prefer-today variant).

Modelling conventions (shallow embedding):
* Instants are Int seconds since the Unix epoch (UTC).  Asia/Kolkata is a
  fixed +05:30 offset in the modern regime (no DST transitions since 1945),
  so tz-localization is total: the instant whose IST civil reading is `c`
  is `epochSecs c - 19800`.  The code's `ambiguous="NaT"` and
  `nonexistent="shift_forward"` branches are consequently dead for this
  zone and do not appear.
* `pd.to_datetime(..., errors="coerce")` is modelled elementwise over a
  small language of field contents (`PdString`) covering the formats the
  source handles: ISO date-times, slashed `a/b/y h:m:s` strings with an
  optional trailing timezone label, bare dates, bare times, and junk.
  Elementwise parsing is exact for label-bearing columns (pandas cannot
  infer a format for them and falls back to per-element dateutil parsing)
  and for format-uniform columns.  Per dateutil's resolution with the
  default dayfirst=False, a slashed string is read month-first when its
  first component is at most 12, day-first otherwise, and an unknown
  trailing timezone label ("IST") is dropped, yielding a naive datetime.
  pandas' representable-year bounds are approximated by 1678..2261.
* A pandas column that is absent, and a present cell containing NaN /
  unparseable text, both make the corresponding per-row candidate NaT;
  both are modelled as `Option`.
* `sort_values(by, ascending=False)` is modelled after pandas' `nargsort`:
  an ascending argsort followed by reversal.  The program uses the pandas
  default `kind='quicksort'`, whose ordering among equal sort keys is
  implementation-defined; the model's argsort is one concrete correct
  sort, and every theorem below uses only consequences invariant under
  the choice of correct sort (permutation, instant-sortedness, and exact
  outputs on inputs whose instants are pairwise distinct).
* Strings with explicit UTC offsets (which would take `tz_convert` rather
  than `tz_localize` inside `_to_dt_localize_ist`) are outside the modelled
  field language; every modelled parse result is naive.
-/

namespace ShiftsOnline

/-! ### Civil calendar arithmetic -/

/-- A naive (timezone-less) civil date-time, as produced by parsing. -/
structure CivilDT where
  year : Int
  month : Nat
  day : Nat
  hour : Nat
  minute : Nat
  second : Nat
deriving DecidableEq

def isLeap (y : Int) : Bool := (y % 4 == 0 && y % 100 != 0) || (y % 400 == 0)

def daysInMonth (y : Int) (m : Nat) : Nat :=
  if m == 2 then (if isLeap y then 29 else 28)
  else if m == 4 || m == 6 || m == 9 || m == 11 then 30
  else 31

/-- Days since 1970-01-01 of a civil date (standard civil-from-days
algorithm, using floor division on `Int`). -/
def daysFromCivil (y : Int) (m d : Nat) : Int :=
  let y' : Int := if m ≤ 2 then y - 1 else y
  let era : Int := y' / 400
  let yoe : Int := y' - era * 400
  let mp : Int := ((m : Int) + 9) % 12
  let doy : Int := (153 * mp + 2) / 5 + (d : Int) - 1
  let doe : Int := yoe * 365 + yoe / 4 - yoe / 100 + doy
  era * 146097 + doe - 719468

/-- Seconds since the Unix epoch of a civil date-time read as UTC. -/
def epochSecs (c : CivilDT) : Int :=
  86400 * daysFromCivil c.year c.month c.day
    + 3600 * (c.hour : Int) + 60 * (c.minute : Int) + (c.second : Int)

/-- Asia/Kolkata offset: +05:30. -/
def istOffsetSecs : Int := 19800

/-- The unique instant whose IST-local civil reading is `c`
(`tz_localize(IST)` of a naive value: attach IST, no shift). -/
def istCivil (c : CivilDT) : Int := epochSecs c - istOffsetSecs

/-- IST calendar day (day number since epoch) of an instant;
model of `.dt.tz_convert(IST)` + `.dt.floor("D")`. -/
def istDay (t : Int) : Int := (t + istOffsetSecs) / 86400

/-- Weekday of a day number, Monday = 0 (1970-01-01 was a Thursday). -/
def weekdayOf (day : Int) : Int := (day + 3) % 7

/-- Civil validity as accepted by pandas: in-range fields and
(conservatively) pandas' representable years. -/
def validCivil (c : CivilDT) : Bool :=
  decide (1678 ≤ c.year ∧ c.year ≤ 2261 ∧ 1 ≤ c.month ∧ c.month ≤ 12 ∧
    1 ≤ c.day ∧ c.day ≤ daysInMonth c.year c.month ∧
    c.hour < 24 ∧ c.minute < 60 ∧ c.second < 60)

/-! ### Model of string timestamp fields and `pd.to_datetime` -/

/-- Contents of a raw timestamp-bearing cell, by format class. -/
inductive PdString where
  /-- `"YYYY-MM-DD HH:MM:SS"` (ISO-like, no offset). -/
  | iso (y : Int) (mo d h mi s : Nat)
  /-- `"a/b/y h:mi:s"`, optionally with a trailing `" IST"` label. -/
  | slashed (a b : Nat) (y : Int) (h mi s : Nat) (tzLabel : Bool)
  /-- `"YYYY-MM-DD"`. -/
  | dateOnly (y : Int) (mo d : Nat)
  /-- `"HH:MM:SS"`. -/
  | timeOnly (h mi s : Nat)
  /-- anything unparseable, including NaN rendered as `"nan"`. -/
  | junk
deriving DecidableEq

/-- A raw cell: either the bare string or the `Timestamp('...')` wrapping
that `_clean_ts_string` strips. -/
inductive RawStr where
  | plain (v : PdString)
  | tsWrapped (v : PdString)
deriving DecidableEq

/-- Model of `_clean_ts_string`: strip a `Timestamp('...')` wrapper,
leave anything else unchanged. -/
def clean_ts_string : RawStr → PdString
  | .plain v => v
  | .tsWrapped v => v

def mkCivil (y : Int) (mo d h mi s : Nat) : CivilDT := ⟨y, mo, d, h, mi, s⟩

/-- Elementwise model of `pd.to_datetime(·, errors="coerce")` producing a
naive result.  Slashed strings follow dateutil's dayfirst=False policy:
first component ≤ 12 is read as the month, otherwise the components are
swapped; an invalid date yields NaT (`none`) with no retry.  A trailing
unknown timezone label is dropped.  Bare times resolve relative to the
current date in dateutil and are left out of the model (`none`). -/
def pdToDatetime : PdString → Option CivilDT
  | .iso y mo d h mi s =>
    if validCivil (mkCivil y mo d h mi s) then some (mkCivil y mo d h mi s) else none
  | .slashed a b y h mi s _ =>
    if a ≤ 12 then
      if validCivil (mkCivil y a b h mi s) then some (mkCivil y a b h mi s) else none
    else
      if b ≤ 12 then
        if validCivil (mkCivil y b a h mi s) then some (mkCivil y b a h mi s) else none
      else none
  | .dateOnly y mo d =>
    if validCivil (mkCivil y mo d 0 0 0) then some (mkCivil y mo d 0 0 0) else none
  | .timeOnly _ _ _ => none
  | .junk => none

/-- Model of the string concatenation `clean(date) + " " + clean(time)`
(line 110): a bare date next to a bare time forms an ISO-like string;
any other combination is unparseable text. -/
def comboPdString : PdString → PdString → PdString
  | .dateOnly y mo d, .timeOnly h mi s => .iso y mo d h mi s
  | _, _ => .junk

/-- Model of `_to_dt_localize_ist` on one cell: clean, parse naive,
attach IST without shifting. -/
def to_dt_localize_ist (s : RawStr) : Option Int :=
  (pdToDatetime (clean_ts_string s)).map istCivil

/-- Model of `_to_dt_utc_to_ist` on one cell: clean, parse as UTC,
convert to IST (conversion does not change the instant). -/
def to_dt_utc_to_ist (s : RawStr) : Option Int :=
  (pdToDatetime (clean_ts_string s)).map epochSecs

/-! ### Raw events and the row-wise timestamp normalizer -/

/-- One raw record as loaded from the JSON log.  `none` in an optional
field covers both "column absent" and "cell is NaN", which the code
treats alike for every use below. -/
structure RawEvent where
  user_id : String
  name : String
  event : String
  note : String
  timezone : Option String
  sort_key : Option RawStr
  datetime_iso : Option RawStr
  datetime : Option RawStr
  date : Option RawStr
  time : Option RawStr
deriving DecidableEq

/-- ASCII uppercase of a character (model of `str.upper` on the tag). -/
def charUpper (c : Char) : Char :=
  if 'a' ≤ c ∧ c ≤ 'z' then Char.ofNat (c.toNat - 32) else c

/-- ASCII uppercase of a string. -/
def upperAscii (s : String) : String := ⟨s.data.map charUpper⟩

/-- Per-row test `tzcol.eq("IST")` where
`tzcol = df["timezone"].astype(str).str.upper()`: an absent column and a
NaN cell (stringified `"NAN"`) both fail the test. -/
def istTagged : Option String → Bool
  | some t => upperAscii t == "IST"
  | none => false

/-- Per-row resolution of an ISO-like field (`sort_key` / `datetime_iso`,
lines 76-100): rows that parse and carry an IST tag are localized without
shift, other parsing rows are read as UTC and converted; parse failures
yield NaT. -/
def resolveISOField (tz : Option String) (f : Option RawStr) : Option Int :=
  match f with
  | none => none
  | some s =>
    match pdToDatetime (clean_ts_string s) with
    | none => none
    | some _ => if istTagged tz then to_dt_localize_ist s else to_dt_utc_to_ist s

/-- Per-row resolution of the legacy `datetime` field (lines 102-105). -/
def resolveLegacyField : Option RawStr → Option Int
  | none => none
  | some s => to_dt_localize_ist s

/-- Per-row resolution of the `date`+`time` pair (lines 107-111). -/
def resolveComboField : Option RawStr → Option RawStr → Option Int
  | some ds, some ts =>
    (pdToDatetime (comboPdString (clean_ts_string ds) (clean_ts_string ts))).map istCivil
  | _, _ => none

def resolveSort (r : RawEvent) : Option Int := resolveISOField r.timezone r.sort_key
def resolveIso (r : RawEvent) : Option Int := resolveISOField r.timezone r.datetime_iso
def resolveLegacy (r : RawEvent) : Option Int := resolveLegacyField r.datetime
def resolveCombo (r : RawEvent) : Option Int := resolveComboField r.date r.time

/-- Per-row `Series.combine_first`: first non-NaT wins. -/
def coalesce (a b : Option Int) : Option Int :=
  match a with
  | some t => some t
  | none => b

/-- Model of `build_datetime_rowwise` (lines 60-125): coalesce the four
per-row candidates in the order `sort_key`, `datetime_iso`, legacy
`datetime`, `date`+`time` (line 114).  The trailing HARDEN block
(lines 116-123) does not change any per-row value: surviving values are
already IST-aware and NaT stays NaT. -/
def build_datetime_rowwise (r : RawEvent) : Option Int :=
  coalesce (resolveSort r) (coalesce (resolveIso r) (coalesce (resolveLegacy r) (resolveCombo r)))

/-! ### Normalized rows and the dropna stage -/

/-- A row surviving normalization: original position plus carried fields
and the derived instant. -/
structure Row where
  idx : Nat
  user_id : String
  name : String
  event : String
  note : String
  instant : Int
deriving DecidableEq

def mkRow (i : Nat) (r : RawEvent) (t : Int) : Row :=
  ⟨i, r.user_id, r.name, r.event, r.note, t⟩

/-- Rows of a batch from position `i` on, keeping exactly the records
whose timestamp resolves (model of `df.dropna(subset=["datetime"])`,
line 153). -/
def parsedRowsFrom (i : Nat) : List RawEvent → List Row
  | [] => []
  | r :: rs =>
    match build_datetime_rowwise r with
    | some t => mkRow i r t :: parsedRowsFrom (i + 1) rs
    | none => parsedRowsFrom (i + 1) rs

def parsedRows (batch : List RawEvent) : List Row := parsedRowsFrom 0 batch

/-- Number of records the dropna stage removes. -/
def droppedCount (batch : List RawEvent) : Nat :=
  batch.countP fun r => (build_datetime_rowwise r).isNone

/-! ### Status classification (lines 169-176) -/

/-- Model of the `status_map` dict lookup with default `"⚪ unknown"`.
The lookup reads only the event label. -/
def status_map (e : String) : String :=
  if e == "Punch In" then "🟢 active"
  else if e == "Break Start" then "🟠 on break"
  else if e == "Break End" then "🟢 active"
  else if e == "Punch Out" then "🔴 on leave"
  else if e == "On Leave" then "🔴 on leave"
  else "⚪ unknown"

/-! ### Sorting model (pandas `sort_values` via `nargsort`) -/

/-- Ascending insertion by instant. -/
def insertAsc (r : Row) : List Row → List Row
  | [] => [r]
  | x :: xs => if x.instant < r.instant then x :: insertAsc r xs else r :: x :: xs

/-- Ascending sort by instant (the modelled numpy argsort).  The program
sorts with the pandas default `kind='quicksort'`, whose ordering among
equal instants is implementation-defined; this model is one concrete
correct sort, and no theorem below depends on its ordering of ties —
only on permutation and instant-sortedness, which every correct sort
shares. -/
def sortAsc : List Row → List Row
  | [] => []
  | r :: rs => insertAsc r (sortAsc rs)

/-- Model of `sort_values("datetime", ascending=False)`: pandas'
`nargsort` computes an ascending argsort and reverses it. -/
def sortDesc (l : List Row) : List Row := (sortAsc l).reverse

/-! ### Deduplication (`drop_duplicates(subset=["user_id"], keep="first")`) -/

/-- Keep the first row of each `user_id`, in order; `seen` accumulates the
user ids already emitted. -/
def dedupFirstAux (seen : List String) : List Row → List Row
  | [] => []
  | r :: rs =>
    if seen.contains r.user_id then dedupFirstAux seen rs
    else r :: dedupFirstAux (r.user_id :: seen) rs

def dedupFirst (l : List Row) : List Row := dedupFirstAux [] l

/-! ### Friday-anchored window (lines 186-199) -/

/-- `last_friday = today - ((today.weekday() - 4) % 7)` days. -/
def windowStart (today : Int) : Int := today - ((weekdayOf today - 4) % 7)

/-- `window_end = next_monday if weekday == 0 else today`, with
`next_monday = last_friday + 3`. -/
def windowEnd (today : Int) : Int :=
  if weekdayOf today = 0 then windowStart today + 3 else today

/-- Keep rows whose IST day lies in `[last_friday, window_end]` (line 197). -/
def fridayWindowFilter (today : Int) (l : List Row) : List Row :=
  l.filter fun r =>
    decide (windowStart today ≤ istDay r.instant) && decide (istDay r.instant ≤ windowEnd today)

/-! ### Latest-per-user selection (lines 202-230) -/

/-- Default latest-per-user (lines 226-230): sort descending, keep first
occurrence of each user, sort descending again. -/
def latestSel (l : List Row) : List Row := sortDesc (dedupFirst (sortDesc l))

/-- `df_today` (line 204): rows whose IST calendar day is today. -/
def todayRows (today : Int) (l : List Row) : List Row :=
  l.filter fun r => decide (istDay r.instant = today)

/-- `df_other` (line 205): the remaining rows. -/
def otherRows (today : Int) (l : List Row) : List Row :=
  l.filter fun r => !(decide (istDay r.instant = today))

/-- `latest_today` (lines 207-210): latest row per user within today's rows. -/
def latestToday (today : Int) (l : List Row) : List Row :=
  dedupFirst (sortDesc (todayRows today l))

/-- `latest_other` (lines 211-216): latest row per user, among the
non-today rows, for the users missing from `latest_today`
(`missing_users = set(df["user_id"]) - set(latest_today["user_id"])`). -/
def latestOther (today : Int) (l : List Row) : List Row :=
  dedupFirst (sortDesc ((otherRows today l).filter fun r =>
    (l.any fun x => x.user_id == r.user_id)
      && !((latestToday today l).any fun x => x.user_id == r.user_id)))

/-- Prefer-today latest-per-user (lines 204-224): latest per user within
today's rows, plus, for users without a today row, latest per user within
the remaining rows; if no row is from today, fall back to the default
selector. -/
def preferTodaySel (today : Int) (l : List Row) : List Row :=
  if (todayRows today l).isEmpty then latestSel l
  else sortDesc (latestToday today l ++ latestOther today l)

/-! ### The assembled pipeline (lines 145-230) -/

/-- The sidebar toggles the core accepts: the Friday-window checkbox, the
view-mode radio (`true` = "Latest per user"), and the prefer-today
checkbox. -/
structure Params where
  apply_window : Bool
  latest_view : Bool
  prefer_today : Bool
deriving DecidableEq

/-- One full pass over a batch: normalize and drop unparseable rows,
sort newest-first (line 156), optionally window, optionally select
latest-per-user.  `today` is the current IST day number. -/
def runApp (p : Params) (today : Int) (batch : List RawEvent) : List Row :=
  let rows := parsedRows batch
  let rows := sortDesc rows
  let rows := if p.apply_window then fridayWindowFilter today rows else rows
  if p.latest_view then
    (if p.prefer_today then preferTodaySel today rows else latestSel rows)
  else rows

/-- The footer caption's "Total rows loaded" (line 244): the length of the
currently displayed table. -/
def footerTotalRows (p : Params) (today : Int) (batch : List RawEvent) : Nat :=
  (runApp p today batch).length

/-- Display status of a surviving row (line 176). -/
def rowStatus (x : Row) : String := status_map x.event

/-- First row carrying a given `user_id`, if any. -/
def firstOcc (u : String) : List Row → Option Row
  | [] => none
  | r :: rs => if r.user_id == u then some r else firstOcc u rs

/-! ### Concrete records used to evaluate the pipeline on explicit inputs -/

/-- A record carrying both a `datetime_iso` and a legacy `datetime` that
denote different instants. -/
def rC1 : RawEvent :=
  { user_id := "u1", name := "", event := "Punch In", note := "", timezone := none,
    sort_key := none, datetime_iso := some (.plain (.iso 2025 10 5 10 0 0)),
    datetime := some (.plain (.slashed 15 10 2025 9 0 0 true)), date := none, time := none }

/-- A record whose only timestamp is an ambiguous (day ≤ 12) legacy string
`"05/10/2025 18:00:00 IST"`. -/
def rC3 : RawEvent :=
  { user_id := "u1", name := "", event := "Punch In", note := "", timezone := none,
    sort_key := none, datetime_iso := none,
    datetime := some (.plain (.slashed 5 10 2025 18 0 0 true)), date := none, time := none }

/-- A same-day `Punch Out` whose note contains the marker phrase. -/
def rC4 : RawEvent :=
  { user_id := "u1", name := "Ann", event := "Punch Out", note := "left for the day",
    timezone := none, sort_key := some (.plain (.iso 2025 10 6 6 30 0)),
    datetime_iso := none, datetime := none, date := none, time := none }

/-- 2025-10-06, a Monday, as an IST day number. -/
def mondayOct6 : Int := daysFromCivil 2025 10 6

/-- A record with no timestamp encoding at all. -/
def rBad : RawEvent :=
  { user_id := "u0", name := "", event := "Punch In", note := "", timezone := none,
    sort_key := none, datetime_iso := none, datetime := none, date := none, time := none }

def rG1 : RawEvent :=
  { user_id := "u1", name := "", event := "Punch In", note := "", timezone := none,
    sort_key := some (.plain (.iso 2025 10 6 4 30 0)),
    datetime_iso := none, datetime := none, date := none, time := none }

def rG2 : RawEvent :=
  { user_id := "u2", name := "", event := "Punch Out", note := "", timezone := none,
    sort_key := some (.plain (.iso 2025 10 6 6 30 0)),
    datetime_iso := none, datetime := none, date := none, time := none }

/-- One unparseable record among two parseable ones. -/
def batchC5 : List RawEvent := [rBad, rG1, rG2]

/-- A record whose IST day is Friday 2025-10-03 (inside the Friday window
of Monday 2025-10-06, but not today). -/
def rFri : RawEvent :=
  { user_id := "u1", name := "", event := "Punch In", note := "", timezone := none,
    sort_key := some (.plain (.iso 2025 10 3 4 30 0)),
    datetime_iso := none, datetime := none, date := none, time := none }

/-- A record whose IST day is Monday 2025-10-06. -/
def rMon : RawEvent :=
  { user_id := "u2", name := "", event := "Punch In", note := "", timezone := none,
    sort_key := some (.plain (.iso 2025 10 6 4 30 0)),
    datetime_iso := none, datetime := none, date := none, time := none }

def batchC9 : List RawEvent := [rFri, rMon]

/-- Record resolving via `sort_key`. -/
def rW1 : RawEvent :=
  { user_id := "w1", name := "", event := "Punch In", note := "", timezone := none,
    sort_key := some (.plain (.iso 2025 11 1 10 0 0)),
    datetime_iso := none, datetime := none, date := none, time := none }

/-- Record resolving via the legacy `datetime` (no ISO fields present). -/
def rW2 : RawEvent :=
  { user_id := "w2", name := "", event := "Punch In", note := "", timezone := none,
    sort_key := none, datetime_iso := none,
    datetime := some (.plain (.slashed 15 10 2025 9 0 0 true)), date := none, time := none }

/-- IST-tagged record with an ISO `sort_key`. -/
def rW3 : RawEvent :=
  { user_id := "w3", name := "", event := "Punch In", note := "", timezone := some "IST",
    sort_key := some (.plain (.iso 2025 11 1 10 0 0)),
    datetime_iso := none, datetime := none, date := none, time := none }

/-- Untagged record with an ISO `datetime_iso`. -/
def rW4 : RawEvent :=
  { user_id := "w4", name := "", event := "Punch In", note := "", timezone := none,
    sort_key := none, datetime_iso := some (.plain (.iso 2025 11 1 10 0 0)),
    datetime := none, date := none, time := none }

/-- Unambiguous (day > 12) legacy string. -/
def rW5 : RawEvent :=
  { user_id := "w5", name := "", event := "Punch In", note := "", timezone := none,
    sort_key := none, datetime_iso := none,
    datetime := some (.plain (.slashed 15 10 2025 9 0 0 true)), date := none, time := none }

/-- Ambiguous (day ≤ 12) legacy string. -/
def rW6 : RawEvent :=
  { user_id := "w6", name := "", event := "Punch In", note := "", timezone := none,
    sort_key := none, datetime_iso := none,
    datetime := some (.plain (.slashed 5 10 2025 9 0 0 true)), date := none, time := none }

/-- Record with an unparseable `sort_key` and a parseable legacy field. -/
def rW7 : RawEvent :=
  { user_id := "w7", name := "", event := "Punch In", note := "", timezone := none,
    sort_key := some (.plain .junk), datetime_iso := none,
    datetime := some (.plain (.slashed 15 10 2025 9 0 0 true)), date := none, time := none }

/-- Rows where `u1` has activity today (2025-10-06 IST) and `u2` only
yesterday. -/
def lW8 : List Row :=
  [⟨0, "u1", "", "Punch In", "", istCivil (mkCivil 2025 10 5 9 0 0)⟩,
   ⟨1, "u2", "", "Punch In", "", istCivil (mkCivil 2025 10 5 10 0 0)⟩,
   ⟨2, "u1", "", "Punch Out", "", istCivil (mkCivil 2025 10 6 10 0 0)⟩]

/-! ### Lemmas about the sorting model -/

theorem insertAsc_perm (r : Row) (m : List Row) : (insertAsc r m).Perm (r :: m) := by
  induction m with
  | nil => simp [insertAsc]
  | cons x xs ih =>
    rw [insertAsc]
    split
    · exact (ih.cons x).trans (List.Perm.swap r x xs)
    · exact List.Perm.refl _

theorem sortAsc_perm (l : List Row) : (sortAsc l).Perm l := by
  induction l with
  | nil => simp [sortAsc]
  | cons r rs ih => exact (insertAsc_perm r (sortAsc rs)).trans (ih.cons r)

theorem mem_sortAsc {x : Row} {l : List Row} : x ∈ sortAsc l ↔ x ∈ l :=
  (sortAsc_perm l).mem_iff

theorem mem_sortDesc {x : Row} {l : List Row} : x ∈ sortDesc l ↔ x ∈ l := by
  rw [sortDesc, List.mem_reverse]; exact mem_sortAsc

theorem sortDesc_perm (l : List Row) : (sortDesc l).Perm l :=
  (List.reverse_perm (sortAsc l)).trans (sortAsc_perm l)

theorem insertAsc_sorted {r : Row} {m : List Row}
    (hm : m.Pairwise fun a b => a.instant ≤ b.instant) :
    (insertAsc r m).Pairwise fun a b => a.instant ≤ b.instant := by
  induction m with
  | nil => simp [insertAsc]
  | cons x xs ih =>
    rw [insertAsc]
    rcases List.pairwise_cons.mp hm with ⟨hx, hxs⟩
    split
    · rename_i hlt
      refine List.pairwise_cons.mpr ⟨?_, ih hxs⟩
      intro y hy
      rcases List.mem_cons.mp ((insertAsc_perm r xs).mem_iff.mp hy) with h | h
      · subst h; exact le_of_lt hlt
      · exact hx y h
    · rename_i hge
      have hle : r.instant ≤ x.instant := not_lt.mp hge
      refine List.pairwise_cons.mpr ⟨?_, hm⟩
      intro y hy
      rcases List.mem_cons.mp hy with h | h
      · subst h; exact hle
      · exact le_trans hle (hx y h)

theorem sortAsc_sorted (l : List Row) :
    (sortAsc l).Pairwise fun a b => a.instant ≤ b.instant := by
  induction l with
  | nil => simp [sortAsc]
  | cons r rs ih => exact insertAsc_sorted ih

/-- Any descending-sorted list is weakly ordered by instant. -/
theorem sortDesc_pairwise_ge (l : List Row) :
    (sortDesc l).Pairwise fun a b => b.instant ≤ a.instant :=
  List.pairwise_reverse.mpr (sortAsc_sorted l)

/-! ### Lemmas about deduplication -/

theorem mem_dedupFirstAux {seen : List String} {l : List Row} {x : Row}
    (hx : x ∈ dedupFirstAux seen l) : x ∈ l ∧ seen.contains x.user_id = false := by
  induction l generalizing seen with
  | nil => simp [dedupFirstAux] at hx
  | cons r rs ih =>
    rw [dedupFirstAux] at hx
    split at hx
    · rcases ih hx with ⟨h1, h2⟩
      exact ⟨List.mem_cons_of_mem r h1, h2⟩
    · rename_i hseen
      rcases List.mem_cons.mp hx with h | h
      · subst h
        exact ⟨List.mem_cons_self x rs, Bool.eq_false_iff.mpr hseen⟩
      · rcases ih h with ⟨h1, h2⟩
        refine ⟨List.mem_cons_of_mem r h1, ?_⟩
        simp only [List.contains_cons, Bool.or_eq_false_iff] at h2
        exact h2.2

theorem dedupFirstAux_sublist (seen : List String) (l : List Row) :
    List.Sublist (dedupFirstAux seen l) l := by
  induction l generalizing seen with
  | nil => simp [dedupFirstAux]
  | cons r rs ih =>
    rw [dedupFirstAux]
    split
    · exact (ih seen).trans (List.sublist_cons_self r rs)
    · exact List.Sublist.cons₂ r (ih (r.user_id :: seen))

theorem mem_dedupFirst {l : List Row} {x : Row} (hx : x ∈ dedupFirst l) : x ∈ l :=
  (mem_dedupFirstAux hx).1

/-- A row whose user is not yet seen and which is the first occurrence of
its user is kept by deduplication. -/
theorem firstOcc_mem_dedupFirstAux {seen : List String} {l : List Row} {u : String} {r : Row}
    (hs : seen.contains u = false) (hf : firstOcc u l = some r) :
    r ∈ dedupFirstAux seen l := by
  induction l generalizing seen with
  | nil => simp [firstOcc] at hf
  | cons x xs ih =>
    rw [firstOcc] at hf
    rw [dedupFirstAux]
    split at hf
    · rename_i hux
      cases hf
      have hcx : seen.contains r.user_id = false := by
        rw [eq_of_beq hux]; exact hs
      rw [if_neg (by rw [hcx]; simp)]
      exact List.mem_cons_self _ _
    · rename_i hux
      by_cases hxs : seen.contains x.user_id = true
      · rw [if_pos hxs]
        exact ih hs hf
      · rw [if_neg hxs]
        refine List.mem_cons_of_mem x (ih ?_ hf)
        simp only [List.contains_cons, Bool.or_eq_false_iff]
        refine ⟨beq_eq_false_iff_ne.mpr fun h => hux ?_, hs⟩
        rw [h]; exact beq_self_eq_true _

/-- Every kept row is the first occurrence of its user. -/
theorem firstOcc_of_mem_dedupFirstAux {seen : List String} {l : List Row} {x : Row}
    (hx : x ∈ dedupFirstAux seen l) : firstOcc x.user_id l = some x := by
  induction l generalizing seen with
  | nil => simp [dedupFirstAux] at hx
  | cons r rs ih =>
    rw [dedupFirstAux] at hx
    rw [firstOcc]
    split at hx
    · rename_i hseen
      have hne : (r.user_id == x.user_id) = false := by
        refine beq_eq_false_iff_ne.mpr fun h => ?_
        have h2 := (mem_dedupFirstAux hx).2
        rw [← h] at h2
        rw [h2] at hseen
        simp at hseen
      rw [if_neg (by simp [hne])]
      exact ih hx
    · rcases List.mem_cons.mp hx with h | h
      · subst h
        rw [if_pos (beq_self_eq_true _)]
      · have h2 := (mem_dedupFirstAux h).2
        simp only [List.contains_cons, Bool.or_eq_false_iff] at h2
        have hne : (r.user_id == x.user_id) = false := by
          refine beq_eq_false_iff_ne.mpr fun hh => ?_
          exact (beq_eq_false_iff_ne.mp h2.1) hh.symm
        rw [if_neg (by simp [hne])]
        exact ih h

theorem firstOcc_user {u : String} {l : List Row} {r : Row}
    (hf : firstOcc u l = some r) : r.user_id = u ∧ r ∈ l := by
  induction l with
  | nil => simp [firstOcc] at hf
  | cons x xs ih =>
    rw [firstOcc] at hf
    split at hf
    · rename_i h
      cases hf
      exact ⟨eq_of_beq h, List.mem_cons_self _ _⟩
    · rcases ih hf with ⟨h1, h2⟩
      exact ⟨h1, List.mem_cons_of_mem x h2⟩

theorem firstOcc_isSome {u : String} {l : List Row} {x : Row}
    (hx : x ∈ l) (hu : x.user_id = u) : ∃ r, firstOcc u l = some r := by
  induction l with
  | nil => simp at hx
  | cons y ys ih =>
    rw [firstOcc]
    split
    · exact ⟨y, rfl⟩
    · rename_i h
      rcases List.mem_cons.mp hx with h' | h'
      · exact absurd (by rw [← h', hu]; exact beq_self_eq_true u) h
      · exact ih h'

/-- In a `R`-pairwise list, the first occurrence of a user `R`-dominates
every other row of that user. -/
theorem firstOcc_pairwise_max {R : Row → Row → Prop} {l : List Row} {u : String} {r : Row}
    (hl : l.Pairwise R) (hf : firstOcc u l = some r) :
    ∀ x ∈ l, x.user_id = u → x = r ∨ R r x := by
  induction l with
  | nil => simp [firstOcc] at hf
  | cons y ys ih =>
    rcases List.pairwise_cons.mp hl with ⟨hy, hys⟩
    rw [firstOcc] at hf
    split at hf
    · cases hf
      intro x hx _
      rcases List.mem_cons.mp hx with h | h
      · exact Or.inl h
      · exact Or.inr (hy x h)
    · rename_i hne
      intro x hx hxu
      rcases List.mem_cons.mp hx with h | h
      · subst h
        exact absurd (by rw [hxu]; exact beq_self_eq_true u) hne
      · exact ih hys hf x h hxu

/-! ### The shared selection lemma: `dedupFirst ∘ sortDesc` -/

/-- Core behaviour of one `sort_values(desc)` + `drop_duplicates(first)`
round: it keeps, for each user present, exactly one row, and that row has
the maximum instant among the user's rows. -/
theorem selCore (m : List Row) (u : String) (hu : ∃ r ∈ m, r.user_id = u) :
    ∃ x, x ∈ dedupFirst (sortDesc m) ∧ x.user_id = u ∧ x ∈ m ∧
      (∀ y ∈ dedupFirst (sortDesc m), y.user_id = u → y = x) ∧
      (∀ y ∈ m, y.user_id = u → y.instant ≤ x.instant) := by
  rcases hu with ⟨r, hr, hru⟩
  rcases firstOcc_isSome (mem_sortDesc.mpr hr) hru with ⟨x, hx⟩
  refine ⟨x, firstOcc_mem_dedupFirstAux (by simp) hx, (firstOcc_user hx).1,
    mem_sortDesc.mp (firstOcc_user hx).2, ?_, ?_⟩
  · intro y hy hyu
    have h1 := firstOcc_of_mem_dedupFirstAux hy
    rw [hyu] at h1
    rw [h1] at hx
    exact Option.some_inj.mp hx
  · intro y hy hyu
    have hmax := firstOcc_pairwise_max (sortDesc_pairwise_ge m) hx y (mem_sortDesc.mpr hy) hyu
    rcases hmax with h | h
    · exact le_of_eq (congrArg Row.instant h)
    · exact h

/-- Membership form of `selCore` used for coverage arguments. -/
theorem selCover (m : List Row) (u : String) (hu : ∃ r ∈ m, r.user_id = u) :
    ∃ x ∈ dedupFirst (sortDesc m), x.user_id = u := by
  rcases selCore m u hu with ⟨x, h1, h2, _⟩
  exact ⟨x, h1, h2⟩

/-! ### Lemmas about normalized rows and the assembled pipeline -/

theorem mem_parsedRowsFrom {i : Nat} {l : List RawEvent} {x : Row}
    (hx : x ∈ parsedRowsFrom i l) :
    ∃ j r, l.get? j = some r ∧ x.idx = i + j ∧
      build_datetime_rowwise r = some x.instant ∧ x = mkRow x.idx r x.instant := by
  induction l generalizing i with
  | nil => simp [parsedRowsFrom] at hx
  | cons r rs ih =>
    simp only [parsedRowsFrom] at hx
    split at hx
    · rename_i t heq
      rcases List.mem_cons.mp hx with h | h
      · subst h
        exact ⟨0, r, rfl, by simp [mkRow], by simp [mkRow, heq], by simp [mkRow]⟩
      · rcases ih h with ⟨j, r', h1, h2, h3, h4⟩
        exact ⟨j + 1, r', by simpa using h1, by omega, h3, h4⟩
    · rcases ih hx with ⟨j, r', h1, h2, h3, h4⟩
      exact ⟨j + 1, r', by simpa using h1, by omega, h3, h4⟩

theorem parsedRowsFrom_length (i : Nat) (l : List RawEvent) :
    (parsedRowsFrom i l).length
      + (l.countP fun r => (build_datetime_rowwise r).isNone) = l.length := by
  induction l generalizing i with
  | nil => simp [parsedRowsFrom]
  | cons r rs ih =>
    simp only [parsedRowsFrom]
    cases hb : build_datetime_rowwise r with
    | some t =>
      have := ih (i + 1)
      simp [List.countP_cons, hb] at this ⊢
      omega
    | none =>
      have := ih (i + 1)
      simp [List.countP_cons, hb] at this ⊢
      omega

theorem droppedCount_eq (batch : List RawEvent) :
    droppedCount batch = batch.length - (parsedRows batch).length := by
  have h := parsedRowsFrom_length 0 batch
  unfold droppedCount parsedRows
  omega

theorem mem_latestSel_subset {l : List Row} {x : Row} (hx : x ∈ latestSel l) : x ∈ l :=
  mem_sortDesc.mp (mem_dedupFirst (mem_sortDesc.mp hx))

theorem mem_preferTodaySel_subset {today : Int} {l : List Row} {x : Row}
    (hx : x ∈ preferTodaySel today l) : x ∈ l := by
  rw [preferTodaySel] at hx
  split at hx
  · exact mem_latestSel_subset hx
  · rcases List.mem_append.mp (mem_sortDesc.mp hx) with h | h
    · exact (List.mem_filter.mp (mem_sortDesc.mp (mem_dedupFirst h))).1
    · have h2 := List.mem_filter.mp (mem_sortDesc.mp (mem_dedupFirst h))
      exact (List.mem_filter.mp h2.1).1

theorem runApp_subset (p : Params) (today : Int) (batch : List RawEvent) :
    ∀ x ∈ runApp p today batch, x ∈ parsedRows batch := by
  intro x hx
  simp only [runApp] at hx
  have step : ∀ {m : List Row},
      x ∈ (if p.apply_window then fridayWindowFilter today m else m) → x ∈ m := by
    intro m hm
    split at hm
    · exact (List.mem_filter.mp hm).1
    · exact hm
  by_cases hv : p.latest_view = true
  · rw [if_pos hv] at hx
    by_cases hp : p.prefer_today = true
    · rw [if_pos hp] at hx
      exact mem_sortDesc.mp (step (mem_preferTodaySel_subset hx))
    · rw [if_neg hp] at hx
      exact mem_sortDesc.mp (step (mem_latestSel_subset hx))
  · rw [if_neg hv] at hx
    exact mem_sortDesc.mp (step hx)

/-- Coverage of the prefer-today selector: every user of the input keeps a
row in the output. -/
theorem preferTodaySel_cover (today : Int) (l : List Row) (u : String)
    (hu : ∃ r ∈ l, r.user_id = u) :
    ∃ x ∈ preferTodaySel today l, x.user_id = u := by
  rcases hu with ⟨r, hr, hru⟩
  rw [preferTodaySel]
  split
  · rcases selCore l u ⟨r, hr, hru⟩ with ⟨x, h1, h2, _⟩
    exact ⟨x, mem_sortDesc.mpr h1, h2⟩
  · by_cases hA : ∃ rt ∈ l, rt.user_id = u ∧ istDay rt.instant = today
    · rcases hA with ⟨rt, hrt, hrtu, hrtd⟩
      have hrt2 : rt ∈ todayRows today l := List.mem_filter.mpr ⟨hrt, by simp [hrtd]⟩
      rcases selCore (todayRows today l) u ⟨rt, hrt2, hrtu⟩ with ⟨x, h1, h2, _⟩
      exact ⟨x, mem_sortDesc.mpr (List.mem_append.mpr (Or.inl h1)), h2⟩
    · have hrd : ¬ istDay r.instant = today := fun hd => hA ⟨r, hr, hru, hd⟩
      have hro : r ∈ otherRows today l := List.mem_filter.mpr ⟨hr, by simp [hrd]⟩
      have hrf : r ∈ (otherRows today l).filter (fun rr =>
          (l.any fun a => a.user_id == rr.user_id)
            && !((latestToday today l).any fun a => a.user_id == rr.user_id)) := by
        refine List.mem_filter.mpr ⟨hro, ?_⟩
        rw [Bool.and_eq_true]
        refine ⟨List.any_eq_true.mpr ⟨r, hr, by simp⟩, ?_⟩
        have hfalse : ((latestToday today l).any fun a => a.user_id == r.user_id) = false := by
          refine Bool.eq_false_iff.mpr fun hany => ?_
          rcases List.any_eq_true.mp hany with ⟨a, ha, hab⟩
          have ha2 := List.mem_filter.mp (mem_sortDesc.mp (mem_dedupFirst ha))
          exact hA ⟨a, ha2.1, by rw [eq_of_beq hab, hru], of_decide_eq_true ha2.2⟩
        rw [hfalse]
        rfl
      rcases selCore _ u ⟨r, hrf, hru⟩ with ⟨x, h1, h2, _⟩
      exact ⟨x, mem_sortDesc.mpr (List.mem_append.mpr (Or.inr h1)), h2⟩

/-! ### Lemmas about the row-wise normalizer -/

theorem coalesce_some (t : Int) (b : Option Int) : coalesce (some t) b = some t := rfl

theorem coalesce_none (b : Option Int) : coalesce none b = b := rfl

theorem resolveISOField_some {s : RawStr} {c : CivilDT} (tz : Option String)
    (hp : pdToDatetime (clean_ts_string s) = some c) :
    resolveISOField tz (some s) =
      some (if istTagged tz then istCivil c else epochSecs c) := by
  simp only [resolveISOField, hp]
  by_cases h : istTagged tz = true
  · simp [if_pos h, to_dt_localize_ist, hp]
  · simp [if_neg h, to_dt_utc_to_ist, hp]

theorem resolveISOField_none {s : RawStr} (tz : Option String)
    (hp : pdToDatetime (clean_ts_string s) = none) :
    resolveISOField tz (some s) = none := by
  simp only [resolveISOField, hp]

theorem resolveLegacyField_parse {s : RawStr} :
    resolveLegacyField (some s) = (pdToDatetime (clean_ts_string s)).map istCivil := rfl

/-! ### C1: timestamp-encoding precedence -/

/-- C1 counterexample: a record carrying both a `datetime_iso` and a legacy
`datetime` resolves via `datetime_iso` (line 114 coalesces `sort_key`,
`datetime_iso`, legacy, `date`+`time` in that order), not via the legacy
string as the claimed precedence (`sort_key`, legacy, `datetime_iso`,
`date`+`time`) would require. -/
theorem precedence_iso_before_legacy_cex :
    build_datetime_rowwise rC1 = some (epochSecs (mkCivil 2025 10 5 10 0 0)) ∧
    resolveLegacy rC1 = some (istCivil (mkCivil 2025 10 15 9 0 0)) ∧
    epochSecs (mkCivil 2025 10 5 10 0 0) ≠ istCivil (mkCivil 2025 10 15 9 0 0) :=
  ⟨by decide, by decide, by decide⟩

/-- C1 (amended): the normalizer evaluates the encodings per record in the
fixed precedence order `sort_key`, `datetime_iso`, legacy `datetime`,
`date`+`time`; the first encoding that yields an instant wins, and
different records in one batch may resolve via different encodings. -/
theorem timestamp_precedence_per_record (r : RawEvent) :
    (∀ t, resolveSort r = some t → build_datetime_rowwise r = some t) ∧
    (resolveSort r = none → ∀ t, resolveIso r = some t →
      build_datetime_rowwise r = some t) ∧
    (resolveSort r = none → resolveIso r = none → ∀ t, resolveLegacy r = some t →
      build_datetime_rowwise r = some t) ∧
    (resolveSort r = none → resolveIso r = none → resolveLegacy r = none →
      build_datetime_rowwise r = resolveCombo r) := by
  refine ⟨?_, ?_, ?_, ?_⟩
  · intro t ht
    rw [build_datetime_rowwise, ht, coalesce_some]
  · intro h1 t ht
    rw [build_datetime_rowwise, h1, coalesce_none, ht, coalesce_some]
  · intro h1 h2 t ht
    rw [build_datetime_rowwise, h1, coalesce_none, h2, coalesce_none, ht, coalesce_some]
  · intro h1 h2 h3
    rw [build_datetime_rowwise, h1, coalesce_none, h2, coalesce_none, h3, coalesce_none]

/-- C1 witness: two records of one batch resolving via different
encodings (`rW1` via `sort_key`, `rW2` via the legacy `datetime`). -/
theorem timestamp_precedence_per_record_witness :
    build_datetime_rowwise rW1 = some (epochSecs (mkCivil 2025 11 1 10 0 0)) ∧
    build_datetime_rowwise rW2 = some (istCivil (mkCivil 2025 10 15 9 0 0)) :=
  ⟨(timestamp_precedence_per_record rW1).1 _ (by decide),
   (timestamp_precedence_per_record rW2).2.2.1 (by decide) (by decide) _ (by decide)⟩

/-! ### C2: UTC-vs-local policy for ISO-like fields -/

/-- C2: for a record whose timestamp comes from an ISO-like field
(`sort_key`, or `datetime_iso` when `sort_key` yields nothing), an
IST-designating `timezone` tag makes the derived instant the naive parse
with IST attached (no shift, `istCivil c`), and any other record gets the
UTC reading of the string converted to IST (the instant `epochSecs c`).
The tag test is the code's case-insensitive `tzcol.str.upper().eq("IST")`;
a missing tag fails it. -/
theorem iso_timestamp_timezone_policy (r : RawEvent) (s : RawStr) (c : CivilDT)
    (hp : pdToDatetime (clean_ts_string s) = some c) :
    (r.sort_key = some s →
      (istTagged r.timezone = true → build_datetime_rowwise r = some (istCivil c)) ∧
      (istTagged r.timezone = false → build_datetime_rowwise r = some (epochSecs c))) ∧
    (resolveSort r = none → r.datetime_iso = some s →
      (istTagged r.timezone = true → build_datetime_rowwise r = some (istCivil c)) ∧
      (istTagged r.timezone = false → build_datetime_rowwise r = some (epochSecs c))) := by
  constructor
  · intro hsk
    have h1 : resolveSort r = some (if istTagged r.timezone then istCivil c else epochSecs c) := by
      rw [resolveSort, hsk]
      exact resolveISOField_some r.timezone hp
    constructor
    · intro hist
      rw [hist] at h1
      rw [build_datetime_rowwise, h1, coalesce_some, if_pos rfl]
    · intro hist
      rw [hist] at h1
      rw [build_datetime_rowwise, h1, coalesce_some]
      simp
  · intro hs hiso
    have h1 : resolveIso r = some (if istTagged r.timezone then istCivil c else epochSecs c) := by
      rw [resolveIso, hiso]
      exact resolveISOField_some r.timezone hp
    constructor
    · intro hist
      rw [hist] at h1
      rw [build_datetime_rowwise, hs, coalesce_none, h1, coalesce_some, if_pos rfl]
    · intro hist
      rw [hist] at h1
      rw [build_datetime_rowwise, hs, coalesce_none, h1, coalesce_some]
      simp

/-- C2 witness: an IST-tagged ISO `sort_key` is localized, an untagged
`datetime_iso` is read as UTC. -/
theorem iso_timestamp_timezone_policy_witness :
    build_datetime_rowwise rW3 = some (istCivil (mkCivil 2025 11 1 10 0 0)) ∧
    build_datetime_rowwise rW4 = some (epochSecs (mkCivil 2025 11 1 10 0 0)) :=
  ⟨((iso_timestamp_timezone_policy rW3 (.plain (.iso 2025 11 1 10 0 0))
      (mkCivil 2025 11 1 10 0 0) (by decide)).1 rfl).1 (by decide),
   ((iso_timestamp_timezone_policy rW4 (.plain (.iso 2025 11 1 10 0 0))
      (mkCivil 2025 11 1 10 0 0) (by decide)).2 (by decide) rfl).2 (by decide)⟩

/-! ### C3: the legacy `datetime` path -/

/-- C3 counterexample: the legacy string `"05/10/2025 18:00:00 IST"`
(5 October per the day-first format) is parsed by the code with pandas'
default month-first preference, yielding local civil time 10 May 2025
18:00 rather than the claimed 5 October 2025 18:00. -/
theorem legacy_day_first_cex :
    build_datetime_rowwise rC3 = some (istCivil (mkCivil 2025 5 10 18 0 0)) ∧
    istCivil (mkCivil 2025 5 10 18 0 0) ≠ istCivil (mkCivil 2025 10 5 18 0 0) :=
  ⟨by decide, by decide⟩

/-- C3 (amended): for a record whose timestamp is taken from the legacy
`day/month/year hour:minute:second <tz-label>` string, the trailing label
is dropped by the parser and IST is attached with no UTC shift, but the
parse uses pandas' default month-first preference: only when the day
component exceeds 12 does the derived IST civil time equal the string's
components; for day ≤ 12 the day and month are transposed. -/
theorem legacy_datetime_policy (r : RawEvent) (a b : Nat) (y : Int)
    (h mi s : Nat) (lbl : Bool)
    (hd : r.datetime = some (.plain (.slashed a b y h mi s lbl)))
    (h1 : resolveSort r = none) (h2 : resolveIso r = none) :
    (12 < a → validCivil (mkCivil y b a h mi s) = true →
      build_datetime_rowwise r = some (istCivil (mkCivil y b a h mi s))) ∧
    (a ≤ 12 → validCivil (mkCivil y a b h mi s) = true →
      build_datetime_rowwise r = some (istCivil (mkCivil y a b h mi s))) := by
  constructor
  · intro ha hv
    have hps : pdToDatetime (PdString.slashed a b y h mi s lbl) =
        some (mkCivil y b a h mi s) := by
      have hb : b ≤ 12 := (of_decide_eq_true hv).2.2.2.1
      simp only [pdToDatetime]
      rw [if_neg (not_le.mpr ha), if_pos hb, if_pos hv]
    have hleg : resolveLegacy r = some (istCivil (mkCivil y b a h mi s)) := by
      rw [resolveLegacy, hd, resolveLegacyField_parse]
      rw [clean_ts_string, hps, Option.map]
    rw [build_datetime_rowwise, h1, coalesce_none, h2, coalesce_none, hleg, coalesce_some]
  · intro ha hv
    have hps : pdToDatetime (PdString.slashed a b y h mi s lbl) =
        some (mkCivil y a b h mi s) := by
      simp only [pdToDatetime]
      rw [if_pos ha, if_pos hv]
    have hleg : resolveLegacy r = some (istCivil (mkCivil y a b h mi s)) := by
      rw [resolveLegacy, hd, resolveLegacyField_parse]
      rw [clean_ts_string, hps, Option.map]
    rw [build_datetime_rowwise, h1, coalesce_none, h2, coalesce_none, hleg, coalesce_some]

/-- C3 witness: an unambiguous legacy string keeps its components, an
ambiguous one is read month-first. -/
theorem legacy_datetime_policy_witness :
    build_datetime_rowwise rW5 = some (istCivil (mkCivil 2025 10 15 9 0 0)) ∧
    build_datetime_rowwise rW6 = some (istCivil (mkCivil 2025 5 10 9 0 0)) :=
  ⟨(legacy_datetime_policy rW5 15 10 2025 9 0 0 true rfl (by decide) (by decide)).1
      (by decide) (by decide),
   (legacy_datetime_policy rW6 5 10 2025 9 0 0 true rfl (by decide) (by decide)).2
      (by decide) (by decide)⟩

/-! ### C10: fall-through across encodings -/

/-- C10: a present but unparseable higher-precedence field is skipped in
favour of the remaining encodings, and a record's timestamp is NaT
(dropping the record) exactly when all four per-row candidates fail. -/
theorem timestamp_fallthrough (r : RawEvent) :
    (build_datetime_rowwise r = none ↔
      resolveSort r = none ∧ resolveIso r = none ∧
        resolveLegacy r = none ∧ resolveCombo r = none) ∧
    (∀ s, r.sort_key = some s → pdToDatetime (clean_ts_string s) = none →
      build_datetime_rowwise r =
        coalesce (resolveIso r) (coalesce (resolveLegacy r) (resolveCombo r))) ∧
    (∀ s, r.datetime_iso = some s → pdToDatetime (clean_ts_string s) = none →
      build_datetime_rowwise r =
        coalesce (resolveSort r) (coalesce (resolveLegacy r) (resolveCombo r))) ∧
    (∀ s, r.datetime = some s → pdToDatetime (clean_ts_string s) = none →
      build_datetime_rowwise r =
        coalesce (resolveSort r) (coalesce (resolveIso r) (resolveCombo r))) := by
  refine ⟨?_, ?_, ?_, ?_⟩
  · cases hs : resolveSort r <;> cases hi : resolveIso r <;>
      cases hl : resolveLegacy r <;> cases hc : resolveCombo r <;>
      simp [build_datetime_rowwise, coalesce, hs, hi, hl, hc]
  · intro s hsk hp
    have hs : resolveSort r = none := by
      rw [resolveSort, hsk]
      exact resolveISOField_none r.timezone hp
    rw [build_datetime_rowwise, hs, coalesce_none]
  · intro s hiso hp
    have hi : resolveIso r = none := by
      rw [resolveIso, hiso]
      exact resolveISOField_none r.timezone hp
    cases hs : resolveSort r with
    | some t => rw [build_datetime_rowwise, hs, coalesce_some, coalesce_some]
    | none =>
      rw [build_datetime_rowwise, hs, coalesce_none, coalesce_none, hi, coalesce_none]
  · intro s hleg hp
    have hl : resolveLegacy r = none := by
      rw [resolveLegacy, hleg, resolveLegacyField_parse, hp, Option.map]
    cases hs : resolveSort r with
    | some t => rw [build_datetime_rowwise, hs, coalesce_some, coalesce_some]
    | none =>
      cases hi : resolveIso r with
      | some t =>
        rw [build_datetime_rowwise, hs, coalesce_none, hi, coalesce_some,
          coalesce_none, coalesce_some]
      | none =>
        rw [build_datetime_rowwise, hs, coalesce_none, hi, coalesce_none, hl,
          coalesce_none, coalesce_none]

/-- C10 witness: a record whose `sort_key` is present but unparseable
falls through to its legacy `datetime`. -/
theorem timestamp_fallthrough_witness :
    build_datetime_rowwise rW7 =
      coalesce (resolveIso rW7) (coalesce (resolveLegacy rW7) (resolveCombo rW7)) ∧
    build_datetime_rowwise rW7 = some (istCivil (mkCivil 2025 10 15 9 0 0)) :=
  ⟨(timestamp_fallthrough rW7).2.1 (.plain .junk) rfl (by decide), by decide⟩

/-! ### C4: `Punch Out` classification -/

/-- C4 counterexample: a `Punch Out` record dated today whose note contains
the marker phrase "left for the day" is still displayed as `on leave` —
the lookup at lines 169-176 is a fixed dict and never yields a
"left for the day" status. -/
theorem punch_out_context_cex :
    runApp ⟨true, true, true⟩ mondayOct6 [rC4] =
      [mkRow 0 rC4 (epochSecs (mkCivil 2025 10 6 6 30 0))] ∧
    istDay (epochSecs (mkCivil 2025 10 6 6 30 0)) = mondayOct6 ∧
    rowStatus (mkRow 0 rC4 (epochSecs (mkCivil 2025 10 6 6 30 0))) = "🔴 on leave" ∧
    ("🔴 on leave" : String) ≠ "left for the day" ∧
    ("🔴 on leave" : String) ≠ "🔴 left for the day" :=
  ⟨by decide, by decide, by decide, by decide, by decide⟩

/-- C4 (amended): the classifier is context-insensitive — every row whose
event label is `Punch Out` is displayed as `on leave`, regardless of the
note field and of the row's date. -/
theorem punch_out_status_uniform (x : Row) (he : x.event = "Punch Out") :
    rowStatus x = "🔴 on leave" := by
  rw [rowStatus, he]
  decide

/-- C4 witness: the uniform classification evaluated on a concrete row
dated today with the marker note. -/
theorem punch_out_status_uniform_witness :
    rowStatus (mkRow 0 rC4 (epochSecs (mkCivil 2025 10 6 6 30 0))) = "🔴 on leave" :=
  punch_out_status_uniform _ (by decide)

/-! ### C5: exclusion and reporting of unparseable records -/

/-- C5 counterexample: on a batch where exactly one record is dropped by
normalization, the only count the app reports (the footer's
"Total rows loaded", line 244) is the displayed-row count 2, not the
dropped count 1. -/
theorem dropped_count_not_reported_cex :
    droppedCount batchC5 = 1 ∧
    footerTotalRows ⟨true, false, false⟩ mondayOct6 batchC5 = 2 ∧
    (2 : Nat) ≠ 1 :=
  ⟨by decide, by decide, by decide⟩

/-- C5 (amended): every record whose timestamp resolves under no encoding
is excluded from every view (for all toggle combinations), the pass never
aborts, and every displayed row is the per-record image of a parseable
record (other rows are unaffected); the dropped count equals the number of
records the dropna stage removes, but it is not reported — the footer
reports the displayed-row count. -/
theorem unparseable_rows_excluded (p : Params) (today : Int) (batch : List RawEvent) :
    (∀ x ∈ runApp p today batch,
      ∃ r, batch.get? x.idx = some r ∧ build_datetime_rowwise r = some x.instant ∧
        x = mkRow x.idx r x.instant) ∧
    (∀ i r, batch.get? i = some r → build_datetime_rowwise r = none →
      ∀ x ∈ runApp p today batch, x.idx ≠ i) ∧
    droppedCount batch = batch.length - (parsedRows batch).length := by
  refine ⟨?_, ?_, droppedCount_eq batch⟩
  · intro x hx
    rcases mem_parsedRowsFrom (runApp_subset p today batch x hx) with ⟨j, r, h1, h2, h3, h4⟩
    refine ⟨r, ?_, h3, h4⟩
    rw [h2]
    simpa using h1
  · intro i r hi hnone x hx hidx
    rcases mem_parsedRowsFrom (runApp_subset p today batch x hx) with ⟨j, r', h1, h2, h3, h4⟩
    have hij : i = j := by omega
    rw [← hij, hi] at h1
    cases h1
    rw [h3] at hnone
    cases hnone

/-- C5 witness: on the concrete batch with one unparseable record (at
position 0), a displayed row never carries that position. -/
theorem unparseable_rows_excluded_witness :
    (mkRow 2 rG2 (epochSecs (mkCivil 2025 10 6 6 30 0))).idx ≠ 0 :=
  (unparseable_rows_excluded ⟨true, false, false⟩ mondayOct6 batchC5).2.1 0 rBad
    (by decide) (by decide) _ (by decide)

/-! ### C6: the Friday-anchored window -/

/-- C6: `window_start = today - ((weekday(today) - 4) mod 7)` is the most
recent Friday at or before today; on a Monday the window end is
`window_start + 3` (which is that Monday itself), otherwise it is today;
and the filter keeps exactly the rows whose IST day lies in
`[window_start, window_end]`. -/
theorem friday_window_spec (today : Int) (l : List Row) :
    windowStart today = today - ((weekdayOf today - 4) % 7) ∧
    weekdayOf (windowStart today) = 4 ∧
    windowStart today ≤ today ∧
    today - windowStart today < 7 ∧
    (weekdayOf today = 0 → windowEnd today = windowStart today + 3 ∧ windowEnd today = today) ∧
    (weekdayOf today ≠ 0 → windowEnd today = today) ∧
    (∀ x, x ∈ fridayWindowFilter today l ↔
      x ∈ l ∧ windowStart today ≤ istDay x.instant ∧ istDay x.instant ≤ windowEnd today) := by
  refine ⟨rfl, ?_, ?_, ?_, ?_, ?_, ?_⟩
  · simp only [weekdayOf, windowStart]
    omega
  · simp only [windowStart, weekdayOf]
    omega
  · simp only [windowStart, weekdayOf]
    omega
  · intro h
    rw [windowEnd, if_pos h]
    refine ⟨rfl, ?_⟩
    simp only [windowStart, weekdayOf]
    simp only [weekdayOf] at h
    omega
  · intro h
    rw [windowEnd, if_neg h]
  · intro x
    simp only [fridayWindowFilter, List.mem_filter, Bool.and_eq_true, decide_eq_true_eq]

/-- C6 witness: the window bounds evaluated on Monday 2025-10-06. -/
theorem friday_window_spec_witness :
    windowEnd mondayOct6 = windowStart mondayOct6 + 3 ∧ windowEnd mondayOct6 = mondayOct6 :=
  (friday_window_spec mondayOct6 []).2.2.2.2.1 (by decide)

/-! ### C9: absence of a "today only" window mode -/

/-- C9 counterexample: under every one of the eight combinations of the
exposed toggles, the pipeline run on Monday 2025-10-06 retains user `u1`,
whose only record is dated Friday 2025-10-03 — so no accepted mode keeps
only records with local date equal to today, and no mode overrides the
Friday window with a today-only restriction. -/
theorem today_only_mode_cex :
    ((runApp ⟨false, false, false⟩ mondayOct6 batchC9).any fun x =>
      x.user_id == "u1" && !(decide (istDay x.instant = mondayOct6))) = true ∧
    ((runApp ⟨false, false, true⟩ mondayOct6 batchC9).any fun x =>
      x.user_id == "u1" && !(decide (istDay x.instant = mondayOct6))) = true ∧
    ((runApp ⟨false, true, false⟩ mondayOct6 batchC9).any fun x =>
      x.user_id == "u1" && !(decide (istDay x.instant = mondayOct6))) = true ∧
    ((runApp ⟨false, true, true⟩ mondayOct6 batchC9).any fun x =>
      x.user_id == "u1" && !(decide (istDay x.instant = mondayOct6))) = true ∧
    ((runApp ⟨true, false, false⟩ mondayOct6 batchC9).any fun x =>
      x.user_id == "u1" && !(decide (istDay x.instant = mondayOct6))) = true ∧
    ((runApp ⟨true, false, true⟩ mondayOct6 batchC9).any fun x =>
      x.user_id == "u1" && !(decide (istDay x.instant = mondayOct6))) = true ∧
    ((runApp ⟨true, true, false⟩ mondayOct6 batchC9).any fun x =>
      x.user_id == "u1" && !(decide (istDay x.instant = mondayOct6))) = true ∧
    ((runApp ⟨true, true, true⟩ mondayOct6 batchC9).any fun x =>
      x.user_id == "u1" && !(decide (istDay x.instant = mondayOct6))) = true :=
  ⟨by decide, by decide, by decide, by decide, by decide, by decide, by decide, by decide⟩

/-- C9 (amended): the core exposes no "today only" window mode — the only
window control is the Friday-window toggle, and under every combination of
the exposed toggles any user owning a parsed record inside the Friday
window stays represented in the output, whether or not that record is from
today. -/
theorem no_today_only_window_mode (p : Params) (today : Int) (batch : List RawEvent)
    (u : String)
    (hu : ∃ r ∈ parsedRows batch, r.user_id = u ∧
      windowStart today ≤ istDay r.instant ∧ istDay r.instant ≤ windowEnd today) :
    ∃ x ∈ runApp p today batch, x.user_id = u := by
  rcases hu with ⟨r, hr, hru, hw1, hw2⟩
  have key : ∀ m : List Row, r ∈ m →
      ∃ x ∈ (if p.latest_view then
          (if p.prefer_today then preferTodaySel today m else latestSel m)
        else m), x.user_id = u := by
    intro m hm
    split
    · split
      · exact preferTodaySel_cover today m u ⟨r, hm, hru⟩
      · rcases selCore m u ⟨r, hm, hru⟩ with ⟨x, hx1, hx2, _⟩
        exact ⟨x, mem_sortDesc.mpr hx1, hx2⟩
    · exact ⟨r, hm, hru⟩
  have hrm : r ∈ (if p.apply_window then
      fridayWindowFilter today (sortDesc (parsedRows batch))
    else sortDesc (parsedRows batch)) := by
    split
    · exact List.mem_filter.mpr ⟨mem_sortDesc.mpr hr, by simp [hw1, hw2]⟩
    · exact mem_sortDesc.mpr hr
  simp only [runApp]
  exact key _ hrm

/-- C9 witness: user `u1` (Friday record, in window) is represented on
Monday under the default toggles. -/
theorem no_today_only_window_mode_witness :
    ∃ x ∈ runApp ⟨true, true, true⟩ mondayOct6 batchC9, x.user_id = "u1" :=
  no_today_only_window_mode ⟨true, true, true⟩ mondayOct6 batchC9 "u1" (by decide)

/-! ### C8: the prefer-today selector -/

/-- C8: the prefer-today selector outputs only input rows, exactly one row
per user of the input; a user with activity today is represented by a
today row of maximal instant among that user's today rows, and a user
inactive today by a row of maximal instant among all that user's rows. -/
theorem latest_per_user_prefer_today (today : Int) (l : List Row)
    (u : String) (hu : ∃ r ∈ l, r.user_id = u) :
    (∀ x ∈ preferTodaySel today l, x ∈ l) ∧
    ∃ x, x ∈ preferTodaySel today l ∧ x.user_id = u ∧
      (∀ y ∈ preferTodaySel today l, y.user_id = u → y = x) ∧
      ((∃ rt ∈ l, rt.user_id = u ∧ istDay rt.instant = today) →
        istDay x.instant = today ∧
        ∀ y ∈ l, y.user_id = u → istDay y.instant = today → y.instant ≤ x.instant) ∧
      ((∀ rt ∈ l, rt.user_id = u → istDay rt.instant ≠ today) →
        ∀ y ∈ l, y.user_id = u → y.instant ≤ x.instant) := by
  refine ⟨fun x hx => mem_preferTodaySel_subset hx, ?_⟩
  rcases hu with ⟨r, hr, hru⟩
  by_cases hemp : (todayRows today l).isEmpty = true
  · have hsel : preferTodaySel today l = latestSel l := by
      rw [preferTodaySel, if_pos hemp]
    have hnil : todayRows today l = [] := by
      cases h : todayRows today l with
      | nil => rfl
      | cons a as => rw [h] at hemp; simp [List.isEmpty] at hemp
    rcases selCore l u ⟨r, hr, hru⟩ with ⟨x, h1, h2, h3, h4, h5⟩
    refine ⟨x, ?_, h2, ?_, ?_, ?_⟩
    · rw [hsel]
      exact mem_sortDesc.mpr h1
    · intro y hy hyu
      rw [hsel] at hy
      exact h4 y (mem_sortDesc.mp hy) hyu
    · rintro ⟨rt, hrt, hrtu, hrtd⟩
      exfalso
      have hmem : rt ∈ todayRows today l := List.mem_filter.mpr ⟨hrt, by simp [hrtd]⟩
      rw [hnil] at hmem
      simp at hmem
    · intro _ y hy hyu
      exact h5 y hy hyu
  · have hsel : preferTodaySel today l =
        sortDesc (latestToday today l ++ latestOther today l) := by
      rw [preferTodaySel, if_neg hemp]
    by_cases hA : ∃ rt ∈ l, rt.user_id = u ∧ istDay rt.instant = today
    · rcases hA with ⟨rt, hrt, hrtu, hrtd⟩
      have hrt2 : rt ∈ todayRows today l := List.mem_filter.mpr ⟨hrt, by simp [hrtd]⟩
      rcases selCore (todayRows today l) u ⟨rt, hrt2, hrtu⟩ with ⟨x, h1, h2, h3, h4, h5⟩
      have hxday : istDay x.instant = today := of_decide_eq_true (List.mem_filter.mp h3).2
      refine ⟨x, ?_, h2, ?_, ?_, ?_⟩
      · rw [hsel]
        exact mem_sortDesc.mpr (List.mem_append.mpr (Or.inl h1))
      · intro y hy hyu
        rw [hsel] at hy
        rcases List.mem_append.mp (mem_sortDesc.mp hy) with hyT | hyO
        · exact h4 y hyT hyu
        · exfalso
          have hy2 := List.mem_filter.mp (mem_sortDesc.mp (mem_dedupFirst hyO))
          have hcond := hy2.2
          rw [Bool.and_eq_true] at hcond
          have hfalse : ((latestToday today l).any fun a => a.user_id == y.user_id) = false := by
            simpa using hcond.2
          have hanytrue : ((latestToday today l).any fun a => a.user_id == y.user_id) = true :=
            List.any_eq_true.mpr ⟨x, h1, by rw [h2, hyu]; exact beq_self_eq_true u⟩
          rw [hanytrue] at hfalse
          simp at hfalse
      · intro _
        refine ⟨hxday, ?_⟩
        intro y hy hyu hyd
        exact h5 y (List.mem_filter.mpr ⟨hy, by simp [hyd]⟩) hyu
      · intro hB
        exact absurd hrtd (hB rt hrt hrtu)
    · have hfilt : ∀ y ∈ l, y.user_id = u → y ∈ (otherRows today l).filter (fun rr =>
          (l.any fun a => a.user_id == rr.user_id)
            && !((latestToday today l).any fun a => a.user_id == rr.user_id)) := by
        intro y hy hyu
        have hyd : istDay y.instant ≠ today := fun hd => hA ⟨y, hy, hyu, hd⟩
        refine List.mem_filter.mpr ⟨List.mem_filter.mpr ⟨hy, by simp [hyd]⟩, ?_⟩
        rw [Bool.and_eq_true]
        refine ⟨List.any_eq_true.mpr ⟨y, hy, by simp⟩, ?_⟩
        have hfalse : ((latestToday today l).any fun a => a.user_id == y.user_id) = false := by
          refine Bool.eq_false_iff.mpr fun hany => ?_
          rcases List.any_eq_true.mp hany with ⟨a, ha, hab⟩
          have ha2 := List.mem_filter.mp (mem_sortDesc.mp (mem_dedupFirst ha))
          exact hA ⟨a, ha2.1, by rw [eq_of_beq hab, hyu], of_decide_eq_true ha2.2⟩
        rw [hfalse]
        rfl
      rcases selCore _ u ⟨r, hfilt r hr hru, hru⟩ with ⟨x, h1, h2, h3, h4, h5⟩
      refine ⟨x, ?_, h2, ?_, ?_, ?_⟩
      · rw [hsel]
        exact mem_sortDesc.mpr (List.mem_append.mpr (Or.inr h1))
      · intro y hy hyu
        rw [hsel] at hy
        rcases List.mem_append.mp (mem_sortDesc.mp hy) with hyT | hyO
        · exfalso
          have hy2 := List.mem_filter.mp (mem_sortDesc.mp (mem_dedupFirst hyT))
          exact hA ⟨y, hy2.1, hyu, of_decide_eq_true hy2.2⟩
        · exact h4 y hyO hyu
      · rintro ⟨rt, hrt, hrtu, hrtd⟩
        exact absurd ⟨rt, hrt, hrtu, hrtd⟩ hA
      · intro _ y hy hyu
        exact h5 y (hfilt y hy hyu) hyu

/-- C8 witness: `u1` (active today) is represented by today's punch-out,
`u2` (inactive today) by yesterday's record. -/
theorem latest_per_user_prefer_today_witness :
    preferTodaySel mondayOct6 lW8 =
      [⟨2, "u1", "", "Punch Out", "", istCivil (mkCivil 2025 10 6 10 0 0)⟩,
       ⟨1, "u2", "", "Punch In", "", istCivil (mkCivil 2025 10 5 10 0 0)⟩] ∧
    ((∀ x ∈ preferTodaySel mondayOct6 lW8, x ∈ lW8) ∧
      ∃ x, x ∈ preferTodaySel mondayOct6 lW8 ∧ x.user_id = "u2" ∧
        (∀ y ∈ preferTodaySel mondayOct6 lW8, y.user_id = "u2" → y = x) ∧
        ((∃ rt ∈ lW8, rt.user_id = "u2" ∧ istDay rt.instant = mondayOct6) →
          istDay x.instant = mondayOct6 ∧
          ∀ y ∈ lW8, y.user_id = "u2" → istDay y.instant = mondayOct6 →
            y.instant ≤ x.instant) ∧
        ((∀ rt ∈ lW8, rt.user_id = "u2" → istDay rt.instant ≠ mondayOct6) →
          ∀ y ∈ lW8, y.user_id = "u2" → y.instant ≤ x.instant)) :=
  ⟨by decide, latest_per_user_prefer_today mondayOct6 lW8 "u2" (by decide)⟩

end ShiftsOnline
